import Mathlib

/-!
Verification development for the maven_github_scraper crawl pipeline.

The definitions below are a shallow embedding of the Rust sources:
  * `src/scraper/github.rs` — response classification (`handle_response`),
    token rotation inside `Github::retry`, `Github::get_token`;
  * `src/scraper/mod.rs` — `Scraper::fetch_and_download` (pagination loop),
    `Scraper::load_repositories` (detail + harvest stage),
    `Scraper::fetch_all_files_for` (per-repository fan-out);
  * `src/main.rs` / `src/data.rs` — `Repo::path`, `Data::get_pom_path`.
HTTP statuses are `Nat`, machine `usize` ids are `Nat`, strings are `String`.
Fallible calls return `Except`; side effects (ledger and result-sink
appends, dispatches, listing calls) are made explicit as event traces.
-/

/-! ### Strings: byte-free models of Rust `str::contains` / `str::ends_with` -/

/-- Model of Rust slice prefix testing on character lists. -/
def listPrefixB : List Char → List Char → Bool
  | [], _ => true
  | _ :: _, [] => false
  | a :: as, b :: bs => a == b && listPrefixB as bs

/-- `sliceAt pat l = true` iff `pat` occurs in `l` starting at some position.
Model of Rust `str::contains` on the underlying character list. -/
def sliceAt (pat : List Char) : List Char → Bool
  | [] => pat.isEmpty
  | c :: rest => listPrefixB pat (c :: rest) || sliceAt pat rest

/-- Rust `str::contains(pat)` for string pattern `pat`. -/
def strContains (s pat : String) : Bool :=
  sliceAt pat.data s.data

/-- Rust `str::ends_with(pat)`: `pat` is a suffix of `s`. -/
def strEndsWith (s pat : String) : Bool :=
  listPrefixB pat.data.reverse s.data.reverse

/-! ### `github.rs`: the error enum and `handle_response` -/

deriving instance DecidableEq for Except

/-- Embedding of `scraper::github::Error` (github.rs lines 103-119).
`Reqwest` is the transport-level ("transient") failure; `RateLimit` and
`HttpError` carry the HTTP status code. -/
inductive GhError where
  | Reqwest
  | RateLimit (status : Nat)
  | HttpError (status : Nat)
  | DataError
  | EmptyData
  | Io
  deriving DecidableEq, Repr

/-- `true` exactly on the `HttpError` constructor. -/
def GhError.isHttpStatus : GhError → Bool
  | .HttpError _ => true
  | _ => false

/-- The decoded `GitHubError` body (github.rs lines 27-32): we keep only the
`message` field, the one `handle_response` inspects. -/
structure GitHubErrorBody where
  message : String
  deriving DecidableEq, Repr

/-- An HTTP response as `handle_response` sees it: the status code and,
for the non-2xx branch, whether the body decodes to a `GitHubError`
(`none` models the `else` of `if let Ok(error) = resp.json().await`). -/
structure HttpResponse where
  status : Nat
  errorBody : Option GitHubErrorBody
  deriving DecidableEq, Repr

/-- `http::StatusCode::is_success`: 200 ≤ status < 300. -/
def statusIsSuccess (s : Nat) : Bool :=
  200 ≤ s && s < 300

/-- Embedding of `handle_response` (github.rs lines 334-354): 2xx passes the
response through; 429 (`TOO_MANY_REQUESTS`) and 422 (`UNPROCESSABLE_ENTITY`)
are rate limits; otherwise a decoded error body mentioning "abuse" or
"rate limit" is a rate limit, and anything else is `HttpError status`. -/
def handle_response (resp : HttpResponse) : Except GhError HttpResponse :=
  if statusIsSuccess resp.status then
    .ok resp
  else if resp.status == 429 || resp.status == 422 then
    .error (.RateLimit resp.status)
  else
    match resp.errorBody with
    | some err =>
        if strContains err.message "abuse" || strContains err.message "rate limit" then
          .error (.RateLimit resp.status)
        else
          .error (.HttpError resp.status)
    | none => .error (.HttpError resp.status)

/-- One network attempt as the retry combinator sees it: a transport-level
failure (`send().await?`, classified `Error::Reqwest`) or a delivered
response run through `handle_response`. -/
def classifyAttempt : Option HttpResponse → Except GhError HttpResponse
  | none => .error .Reqwest
  | some resp => handle_response resp

/-! ### `github.rs`: token rotation in `Github::retry` -/

/-- Embedding of the `fetch_update` closure in `Github::retry`
(github.rs lines 305-314) for a pool of `len` tokens: from index `old` the
new index is `0` with the `wait` flag set when `old + 1 ≥ len`, and
`old + 1` with no wait otherwise.  The `Bool` is the `wait` flag that
triggers the 60-second cooldown sleep. -/
def rotateStep (len old : Nat) : Nat × Bool :=
  if old + 1 ≥ len then (0, true) else (old + 1, false)

/-- The rotation index after `n` `RateLimited` results, starting from the
initial `AtomicUsize::new(0)` (github.rs line 146). -/
def rotateIter (len : Nat) : Nat → Nat
  | 0 => 0
  | n + 1 => (rotateStep len (rotateIter len n)).1

/-- Number of cooldown sleeps performed during the first `n` rotations. -/
def sleepCount (len : Nat) : Nat → Nat
  | 0 => 0
  | n + 1 => sleepCount len n + (if (rotateStep len (rotateIter len n)).2 then 1 else 0)

/-! ### `main.rs` / `data.rs`: repository paths -/

/-- Embedding of the `Repo` struct (main.rs lines 20-23). -/
structure Repo where
  id : String
  name : String
  deriving DecidableEq, Repr

/-- Embedding of `Repo::path` (main.rs lines 43-45): the full name with
every `'/'` replaced by `'.'` (Rust `self.name.replace('/', ".")`). -/
def Repo.path (r : Repo) : String :=
  (r.name.data.map (fun c => if c == '/' then '.' else c)).asString

/-- Embedding of `Data::get_pom_path` (data.rs lines 83-85):
`pom_dir.join(repo.path()).join(path)`, with `PathBuf::join` modeled as
`"/"`-separated concatenation. -/
def get_pom_path (pomDir : String) (r : Repo) (path : String) : String :=
  pomDir ++ "/" ++ r.path ++ "/" ++ path

/-! ### `scraper/mod.rs`: the pagination loop `Scraper::fetch_and_download` -/

/-- Embedding of `RestRepository` (github.rs lines 44-50): one summary from
the `GET /repositories?since=` listing endpoint. -/
structure RestRepository where
  id : Nat
  full_name : String
  node_id : String
  fork : Bool
  deriving DecidableEq, Repr

/-- The loop-local state of `fetch_and_download` while triaging one page:
the `last_id` cursor variable, the pending `to_load` batch, and the batches
dispatched (`js.spawn`) so far during this page. -/
structure PageState where
  last_id : Nat
  to_load : List String
  dispatched : List (List String)
  deriving DecidableEq, Repr

/-- Embedding of the body of `for repo in repos.drain(..)` in
`fetch_and_download` (mod.rs lines 218-232): `last_id = repo.id` is an
unconditional assignment; forks are then skipped; a non-fork's `node_id`
is pushed onto the pending batch, and a batch of exactly 100 is dispatched
and the pending batch cleared. -/
def processRepo (s : PageState) (r : RestRepository) : PageState :=
  let s := { s with last_id := r.id }
  if r.fork then s
  else
    let pending := s.to_load ++ [r.node_id]
    if pending.length == 100 then
      { s with to_load := [], dispatched := s.dispatched ++ [pending] }
    else
      { s with to_load := pending }

/-- Triaging one whole page of summaries, in order. -/
def processPage (s : PageState) (page : List RestRepository) : PageState :=
  page.foldl processRepo s

/-- All node ids currently accumulated (dispatched batches in dispatch
order, then the pending batch). -/
def PageState.allIds (s : PageState) : List String :=
  s.dispatched.flatten ++ s.to_load

/-- Observable events of one run of the scan loop in `fetch_and_download`
(mod.rs lines 211-254), in program order:
`listing c` is a `scrape_repositories(c)` call, `observeFlag b` the
`self.finished.load(SeqCst)` read, `dispatchBatch` a `js.spawn` of a full
batch, `persistCursor` the `set_last_id` write, `dispatchFinal` the drain
call `load_repositories(to_load)` on the partial batch, and `breakLoop`
the `break` out of the loop. -/
inductive Event where
  | listing (cursor : Nat)
  | observeFlag (b : Bool)
  | dispatchBatch (ids : List String)
  | persistCursor (n : Nat)
  | dispatchFinal (ids : List String)
  | breakLoop
  deriving DecidableEq, Repr

/-- Replay of the scan loop against a script giving, for each iteration,
the page the listing call returns and the value the cancellation flag
reads.  Mirrors mod.rs lines 211-254: scrape, read flag, triage the page
(dispatching full batches), persist the cursor, join the batches, and —
only if the flag read true — drain the partial batch and break.  The empty
script truncates the (otherwise endless) loop.  There is no empty-page
test anywhere in the loop body. -/
def runScan (last : Nat) (pending : List String) :
    List (List RestRepository × Bool) → List Event
  | [] => []
  | (page, true) :: _rest =>
    let s := processPage ⟨last, pending, []⟩ page
    Event.listing last :: Event.observeFlag true ::
      (s.dispatched.map Event.dispatchBatch ++ [Event.persistCursor s.last_id] ++
        ((if s.to_load.isEmpty then [] else [Event.dispatchFinal s.to_load]) ++
          [Event.breakLoop]))
  | (page, false) :: rest =>
    let s := processPage ⟨last, pending, []⟩ page
    Event.listing last :: Event.observeFlag false ::
      (s.dispatched.map Event.dispatchBatch ++ [Event.persistCursor s.last_id] ++
        runScan s.last_id s.to_load rest)

/-! ### `scraper/mod.rs`: detail + harvest stage -/

/-- Embedding of `GraphRepository` (github.rs lines 71-77): one result of
the batched GraphQL detail query.  `languages` is the list of language
names in `languages.nodes` (entries can be `none`, as in the source's
`Vec<Option<GraphLanguage>>`). -/
structure GraphRepository where
  id : String
  name_with_owner : String
  languages : List (Option String)
  deriving DecidableEq, Repr

/-- The language test in `load_repositories` (mod.rs lines 172-178):
`languages.nodes.iter().filter_map(Option::as_ref).any(|el| el.name == "Java")`. -/
def GraphRepository.isJava (r : GraphRepository) : Bool :=
  (r.languages.filterMap (fun o => o)).any (fun name => name == "Java")

/-- Appends to persistent crawl state, in order of occurrence:
`ledgerAppend` is `Data::mark_fetched` (append the repo id to the
`fetched` ledger file), `recordAppend` is `Data::store_repo` (append one
CSV result row `id,name,has_pom`). -/
inductive StoreEvent where
  | ledgerAppend (id : String)
  | recordAppend (id : String) (name : String) (has_pom : Bool)
  deriving DecidableEq, Repr

/-- The join loop of `fetch_all_files_for` (mod.rs lines 146-159): walk the
download results in join order; an `HttpError` is only logged and the loop
continues; the first error of any other kind is returned.  Yields that
first non-benign error, if any. -/
def firstFatal (dl : String → Except GhError Unit) : List String → Option GhError
  | [] => none
  | p :: rest =>
    match dl p with
    | .ok _ => firstFatal dl rest
    | .error (.HttpError _) => firstFatal dl rest
    | .error e => some e

/-- Embedding of `Scraper::fetch_all_files_for` (mod.rs lines 116-165) for
repository id `repoId` and target file name `file`.  `treeRes` is the
outcome of `Github::tree`, as a list of tree paths; `dl` gives each
dispatched download's outcome.  Returns the store events performed and
the function's `Result<bool>`: an `HttpError` on the tree is benign
(ledger append, `Ok(false)`); otherwise paths with suffix `file` are
downloaded, the first non-benign download error aborts the repository
(no ledger append), and on a clean join the ledger is appended and
`has_file` reports whether any path matched. -/
def fetch_all_files_for (repoId file : String)
    (treeRes : Except GhError (List String))
    (dl : String → Except GhError Unit) :
    List StoreEvent × Except GhError Bool :=
  match treeRes with
  | .error (.HttpError _) => ([.ledgerAppend repoId], .ok false)
  | .error e => ([], .error e)
  | .ok tree =>
    let hits := tree.filter (fun p => strEndsWith p file)
    match firstFatal dl hits with
    | some e => ([], .error e)
    | none => ([.ledgerAppend repoId], .ok (!hits.isEmpty))

/-- The per-repository body of `Scraper::load_repositories`
(mod.rs lines 171-187): a repository whose language histogram lacks
"Java" is skipped outright; a qualifying one goes through
`fetch_all_files_for` and then `store_repo` appends its result row.
Returns the store events and the terminal error, if any. -/
def harvestRepo (r : GraphRepository) (file : String)
    (treeRes : Except GhError (List String))
    (dl : String → Except GhError Unit) :
    List StoreEvent × Option GhError :=
  if r.isJava then
    match fetch_all_files_for r.id file treeRes dl with
    | (evs, .error e) => (evs, some e)
    | (evs, .ok has_files) =>
        (evs ++ [.recordAppend r.id r.name_with_owner has_files], none)
  else
    ([], none)

/-- Embedding of `Scraper::load_repositories` (mod.rs lines 167-189) over
the batch's detail results: repositories are harvested in order and the
first error aborts the rest of the batch (`?` on `fetch_all_files_for`).
`treeOf` and `dl` give, per repository id, the tree outcome and the
download outcomes. -/
def load_repositories (file : String)
    (treeOf : String → Except GhError (List String))
    (dl : String → String → Except GhError Unit) :
    List GraphRepository → List StoreEvent × Option GhError
  | [] => ([], none)
  | r :: rest =>
    match harvestRepo r file (treeOf r.id) (dl r.id) with
    | (evs, some e) => (evs, some e)
    | (evs, none) =>
        (evs ++ (load_repositories file treeOf dl rest).1,
         (load_repositories file treeOf dl rest).2)

/-! ## Supporting lemmas -/

theorem mod_succ_of_lt (K n : Nat) (h : n % K + 1 < K) : (n + 1) % K = n % K + 1 := by
  have h1 : 1 % K = 1 := Nat.mod_eq_of_lt (by omega)
  rw [Nat.add_mod, h1]
  exact Nat.mod_eq_of_lt h

theorem succ_eq_mul_of_wrap (K n : Nat) (h : n % K + 1 = K) :
    n + 1 = K * (n / K + 1) := by
  conv_lhs => rw [← Nat.div_add_mod n K]
  rw [Nat.mul_succ]
  omega

theorem mod_succ_of_wrap (K n : Nat) (h : n % K + 1 = K) : (n + 1) % K = 0 := by
  rw [succ_eq_mul_of_wrap K n h, Nat.mul_mod_right]

theorem rotateStep_fst_mod (K i : Nat) (hi : i < K) : (rotateStep K i).1 = (i + 1) % K := by
  unfold rotateStep
  split
  · rename_i h
    have h1 : i + 1 = K := by omega
    show 0 = (i + 1) % K
    rw [h1, Nat.mod_self]
  · rename_i h
    show i + 1 = (i + 1) % K
    rw [Nat.mod_eq_of_lt (by omega)]

theorem rotateStep_snd_iff (K i : Nat) : (rotateStep K i).2 = true ↔ (rotateStep K i).1 = 0 := by
  unfold rotateStep
  split
  · simp
  · rename_i h
    simp

theorem rotateIter_mod (K : Nat) (hK : 1 ≤ K) (n : Nat) : rotateIter K n = n % K := by
  induction n with
  | zero => simp [rotateIter]
  | succ n ih =>
    have hlt : n % K < K := Nat.mod_lt _ hK
    show (rotateStep K (rotateIter K n)).1 = (n + 1) % K
    rw [ih]
    unfold rotateStep
    split
    · rename_i h
      rw [mod_succ_of_wrap K n (by omega)]
    · rename_i h
      show n % K + 1 = (n + 1) % K
      rw [mod_succ_of_lt K n (by omega)]

theorem rotateIter_lt (K : Nat) (hK : 1 ≤ K) (n : Nat) : rotateIter K n < K := by
  rw [rotateIter_mod K hK]
  exact Nat.mod_lt _ hK

theorem dvd_succ_iff_wrap (K n : Nat) (hK : 1 ≤ K) : K ∣ (n + 1) ↔ K ≤ n % K + 1 := by
  have hlt : n % K < K := Nat.mod_lt _ hK
  constructor
  · intro hd
    by_contra hlt2
    push_neg at hlt2
    have h0 : (n + 1) % K = n % K + 1 := mod_succ_of_lt K n hlt2
    obtain ⟨c, hc⟩ := hd
    have h1 : (n + 1) % K = 0 := by rw [hc, Nat.mul_mod_right]
    omega
  · intro hge
    exact ⟨n / K + 1, succ_eq_mul_of_wrap K n (by omega)⟩

theorem sleepCount_eq_div (K : Nat) (hK : 1 ≤ K) (n : Nat) : sleepCount K n = n / K := by
  induction n with
  | zero => simp [sleepCount]
  | succ n ih =>
    have hlt : n % K < K := Nat.mod_lt _ hK
    show sleepCount K n + (if (rotateStep K (rotateIter K n)).2 then 1 else 0) = (n + 1) / K
    rw [ih, rotateIter_mod K hK, Nat.succ_div]
    congr 1
    unfold rotateStep
    split
    · rename_i h
      simp [(dvd_succ_iff_wrap K n hK).mpr (by omega)]
    · rename_i h
      have : ¬ K ∣ (n + 1) := by
        intro hd
        exact h ((dvd_succ_iff_wrap K n hK).mp hd)
      simp [this]

theorem rotateIter_cycle_visits_once (K : Nat) (hK : 1 ≤ K) (j : Nat) (hj : j < K) :
    ∃! n, n < K ∧ rotateIter K (n + 1) = j := by
  have hmod : ∀ m, rotateIter K (m + 1) = (m + 1) % K := fun m => rotateIter_mod K hK (m + 1)
  by_cases h0 : j = 0
  · subst h0
    refine ⟨K - 1, ⟨by omega, ?_⟩, ?_⟩
    · rw [hmod]
      have hK1 : K - 1 + 1 = K := by omega
      rw [hK1, Nat.mod_self]
    · rintro m ⟨hm, hm2⟩
      rw [hmod] at hm2
      have hd : K ∣ m + 1 := Nat.dvd_of_mod_eq_zero hm2
      have hle := Nat.le_of_dvd (by omega) hd
      omega
  · refine ⟨j - 1, ⟨by omega, ?_⟩, ?_⟩
    · rw [hmod]
      have hj1 : j - 1 + 1 = j := by omega
      rw [hj1]
      exact Nat.mod_eq_of_lt hj
    · rintro m ⟨hm, hm2⟩
      rw [hmod] at hm2
      rcases Nat.lt_or_ge (m + 1) K with hlt | hge
      · rw [Nat.mod_eq_of_lt hlt] at hm2
        omega
      · have hmK : m + 1 = K := by omega
        rw [hmK, Nat.mod_self] at hm2
        omega

/-! ## Claims -/

/-- C1: in `Github::retry`, over a pool of `K ≥ 1` tokens, every
`RateLimited` result advances the shared rotation index by exactly one
modulo `K`; the cooldown sleep fires exactly on the advances that wrap the
index back to slot 0; starting from the initial index 0 the K rotations of
one full cycle visit each slot exactly once; and `N` rotations perform
exactly `N / K` cooldown sleeps — once per complete cycle. -/
theorem retry_rotation_cycle (K : Nat) (hK : 1 ≤ K) :
    (∀ i, i < K → (rotateStep K i).1 = (i + 1) % K) ∧
    (∀ i, (rotateStep K i).2 = true ↔ (rotateStep K i).1 = 0) ∧
    (∀ j, j < K → ∃! n, n < K ∧ rotateIter K (n + 1) = j) ∧
    (∀ N, sleepCount K N = N / K) :=
  ⟨fun i hi => rotateStep_fst_mod K i hi,
   fun i => rotateStep_snd_iff K i,
   fun j hj => rotateIter_cycle_visits_once K hK j hj,
   fun N => sleepCount_eq_div K hK N⟩

/-- Witness for C1 at the concrete pool size 3: the rotation from slot 2
wraps to `(2+1) % 3 = 0`, and 7 rotations sleep `7 / 3 = 2` times. -/
theorem retry_rotation_cycle_witness :
    (rotateStep 3 2).1 = (2 + 1) % 3 ∧ sleepCount 3 7 = 7 / 3 :=
  ⟨(retry_rotation_cycle 3 (by decide)).1 2 (by decide),
   (retry_rotation_cycle 3 (by decide)).2.2.2 7⟩

/-- C9: for a non-empty token pool the rotation index used by
`Github::get_token` stays strictly below the pool size: the initial index
is 0, one `fetch_update` step maps an in-range index to an in-range index,
and hence the index after any number of rotations is in range, so
`self.tokens[index]` never goes out of bounds. -/
theorem get_token_index_in_bounds (K : Nat) (hK : 1 ≤ K) :
    0 < K ∧ (∀ i, i < K → (rotateStep K i).1 < K) ∧ (∀ n, rotateIter K n < K) := by
  have hstep : ∀ i, i < K → (rotateStep K i).1 < K := by
    intro i hi
    unfold rotateStep
    split
    · exact hK
    · show i + 1 < K
      rename_i h
      omega
  exact ⟨hK, hstep, fun n => rotateIter_lt K hK n⟩

/-- Witness for C9 at pool size 2: after 5 rotations the index is in range. -/
theorem get_token_index_in_bounds_witness : rotateIter 2 5 < 2 :=
  (get_token_index_in_bounds 2 (by decide)).2.2 5

/-- C6: `handle_response` maps every delivered response as claimed — 2xx
passes through as success; 429 and 422 are `RateLimit`; any other non-2xx
whose decoded body message contains "abuse" or "rate limit" is
`RateLimit`; every remaining non-2xx (indicator-free body or undecodable
body) is `HttpError` with that status; and a transport-level failure is
the transient `Reqwest` error. -/
theorem handle_response_classification (resp : HttpResponse) :
    (statusIsSuccess resp.status = true → handle_response resp = .ok resp) ∧
    (statusIsSuccess resp.status = false → resp.status = 429 ∨ resp.status = 422 →
      handle_response resp = .error (.RateLimit resp.status)) ∧
    (∀ body, statusIsSuccess resp.status = false → resp.status ≠ 429 → resp.status ≠ 422 →
      resp.errorBody = some body →
      (strContains body.message "abuse" || strContains body.message "rate limit") = true →
      handle_response resp = .error (.RateLimit resp.status)) ∧
    (∀ body, statusIsSuccess resp.status = false → resp.status ≠ 429 → resp.status ≠ 422 →
      resp.errorBody = some body →
      (strContains body.message "abuse" || strContains body.message "rate limit") = false →
      handle_response resp = .error (.HttpError resp.status)) ∧
    (statusIsSuccess resp.status = false → resp.status ≠ 429 → resp.status ≠ 422 →
      resp.errorBody = none → handle_response resp = .error (.HttpError resp.status)) ∧
    classifyAttempt none = .error .Reqwest := by
  refine ⟨?_, ?_, ?_, ?_, ?_, rfl⟩
  · intro h
    simp [handle_response, h]
  · intro h h2
    rcases h2 with h2 | h2 <;> simp [handle_response, h, h2, statusIsSuccess]
  · intro body h h429 h422 hb hc
    simp [handle_response, h, h429, h422, hb, hc]
  · intro body h h429 h422 hb hc
    simp [handle_response, h, h429, h422, hb, hc]
  · intro h h429 h422 hb
    simp [handle_response, h, h429, h422, hb]

/-- Witness for C6: a 503 whose body mentions "rate limit" classifies as
`RateLimit 503`, and a transport failure classifies as `Reqwest`. -/
theorem handle_response_classification_witness :
    handle_response ⟨503, some ⟨"API rate limit exceeded"⟩⟩ = .error (.RateLimit 503) ∧
    classifyAttempt none = .error .Reqwest :=
  ⟨(handle_response_classification ⟨503, some ⟨"API rate limit exceeded"⟩⟩).2.2.1
      ⟨"API rate limit exceeded"⟩ (by decide) (by decide) (by decide) rfl (by decide),
   (handle_response_classification ⟨200, none⟩).2.2.2.2.2⟩

/-- C10: `Repo::path` replaces every `'/'` of the full name by `'.'`; the
mapping is not injective — the distinct full names "a/b.c" and "a.b/c"
both map to "a.b.c", so `Data::get_pom_path` sends downloads for the two
distinct repositories to the same destination path. -/
theorem repo_path_not_injective :
    (Repo.mk "1" "a/b.c").name ≠ (Repo.mk "2" "a.b/c").name ∧
    Repo.path ⟨"1", "a/b.c"⟩ = Repo.path ⟨"2", "a.b/c"⟩ ∧
    get_pom_path "poms" ⟨"1", "a/b.c"⟩ "pom.xml" =
      get_pom_path "poms" ⟨"2", "a.b/c"⟩ "pom.xml" := by
  refine ⟨by decide, by decide, ?_⟩
  show "poms" ++ "/" ++ Repo.path ⟨"1", "a/b.c"⟩ ++ "/" ++ "pom.xml" =
    "poms" ++ "/" ++ Repo.path ⟨"2", "a.b/c"⟩ ++ "/" ++ "pom.xml"
  decide

theorem processRepo_last_id (s : PageState) (r : RestRepository) :
    (processRepo s r).last_id = r.id := by
  unfold processRepo
  split
  · rfl
  · dsimp only
    split <;> rfl

theorem processRepo_allIds (s : PageState) (r : RestRepository) :
    (processRepo s r).allIds =
      if r.fork then s.allIds else s.allIds ++ [r.node_id] := by
  unfold processRepo PageState.allIds
  split
  · rfl
  · dsimp only
    split <;> simp

theorem processPage_allIds (page : List RestRepository) : ∀ s : PageState,
    (processPage s page).allIds =
      s.allIds ++ (page.filter (fun r => !r.fork)).map (fun r => r.node_id) := by
  induction page with
  | nil => intro s; simp [processPage]
  | cons r rest ih =>
    intro s
    show (processPage (processRepo s r) rest).allIds = _
    rw [ih, processRepo_allIds]
    cases hr : r.fork <;> simp [hr, List.filter_cons]

theorem processPage_last_id (page : List RestRepository) : ∀ s : PageState,
    (processPage s page).last_id = page.foldl (fun _ r => r.id) s.last_id := by
  induction page with
  | nil => intro s; rfl
  | cons r rest ih =>
    intro s
    show (processPage (processRepo s r) rest).last_id = _
    rw [ih, processRepo_last_id]
    rfl

theorem foldl_id_bounds (page : List RestRepository) : ∀ init : Nat,
    (page.map (fun r => r.id)).Pairwise (· ≤ ·) → (∀ r ∈ page, init ≤ r.id) →
    init ≤ page.foldl (fun _ r => r.id) init ∧
    ∀ r ∈ page, r.id ≤ page.foldl (fun _ r => r.id) init := by
  induction page with
  | nil => intro init _ _; exact ⟨Nat.le_refl _, by simp⟩
  | cons a rest ih =>
    intro init hsort hge
    simp only [List.map_cons, List.pairwise_cons] at hsort
    obtain ⟨ha, hsort2⟩ := hsort
    have hge2 : ∀ r ∈ rest, a.id ≤ r.id := fun r hr => ha _ (List.mem_map_of_mem _ hr)
    obtain ⟨h1, h2⟩ := ih a.id hsort2 hge2
    simp only [List.foldl_cons]
    refine ⟨Nat.le_trans (hge a (by simp)) h1, ?_⟩
    intro r hr
    rcases List.mem_cons.mp hr with h | h
    · subst h
      exact h1
    · exact h2 r h

/-- C2 counterexample: `fetch_and_download` sets `last_id = repo.id` by
plain assignment, not `max(cursor, id)`.  On the page
`[{id 5, non-fork}, {id 3, non-fork}]` starting from cursor 0, the cursor
persisted by `set_last_id` is 3, strictly below the maximum id 5 seen in
the page — refuting both the `cursor = max(cursor, id)` step and the
"persisted cursor ≥ max id seen" consequence. -/
theorem scan_cursor_not_max_cex :
    (processPage ⟨0, [], []⟩ [⟨5, "a/r5", "n5", false⟩, ⟨3, "b/r3", "n3", false⟩]).last_id = 3 ∧
    (⟨5, "a/r5", "n5", false⟩ : RestRepository) ∈
      [(⟨5, "a/r5", "n5", false⟩ : RestRepository), ⟨3, "b/r3", "n3", false⟩] ∧
    ¬ 5 ≤ (processPage ⟨0, [], []⟩
      [⟨5, "a/r5", "n5", false⟩, ⟨3, "b/r3", "n3", false⟩]).last_id := by
  decide

/-- C2 corrected: forks are skipped — after a page, the accumulated node
ids are exactly the previous ones followed by the page's non-fork node
ids in order (so a fork's node id is never appended); the cursor is set
to each summary's id by unconditional assignment, so it ends as the fold
of the ids over the page; and only under the added assumption that the
page lists ids in ascending order, each at least the incoming cursor —
the order the live listing endpoint guarantees — is the final cursor an
upper bound of the incoming cursor and of every id seen in the page. -/
theorem scan_page_fork_skip_and_cursor (s : PageState) (page : List RestRepository)
    (hsort : (page.map (fun r => r.id)).Pairwise (· ≤ ·))
    (hge : ∀ r ∈ page, s.last_id ≤ r.id) :
    (processPage s page).allIds =
      s.allIds ++ (page.filter (fun r => !r.fork)).map (fun r => r.node_id) ∧
    (processPage s page).last_id = page.foldl (fun _ r => r.id) s.last_id ∧
    s.last_id ≤ (processPage s page).last_id ∧
    ∀ r ∈ page, r.id ≤ (processPage s page).last_id := by
  obtain ⟨h1, h2⟩ := foldl_id_bounds page s.last_id hsort hge
  refine ⟨processPage_allIds page s, processPage_last_id page s, ?_, ?_⟩
  · rw [processPage_last_id page s]
    exact h1
  · intro r hr
    rw [processPage_last_id page s]
    exact h2 r hr

/-- Witness for the corrected C2 on the concrete page
`[{id 1, non-fork}, {id 2, fork}]` from cursor 0: the fork's node id is
not batched and the final cursor bounds the page's ids. -/
theorem scan_page_fork_skip_and_cursor_witness :
    (processPage ⟨0, [], []⟩ [⟨1, "a/a", "n1", false⟩, ⟨2, "b/b", "n2", true⟩]).allIds = ["n1"] ∧
    2 ≤ (processPage ⟨0, [], []⟩
      [⟨1, "a/a", "n1", false⟩, ⟨2, "b/b", "n2", true⟩]).last_id :=
  ⟨(scan_page_fork_skip_and_cursor ⟨0, [], []⟩
      [⟨1, "a/a", "n1", false⟩, ⟨2, "b/b", "n2", true⟩] (by decide) (by decide)).1.trans
    (by decide),
   (scan_page_fork_skip_and_cursor ⟨0, [], []⟩
      [⟨1, "a/a", "n1", false⟩, ⟨2, "b/b", "n2", true⟩] (by decide) (by decide)).2.2.2
    ⟨2, "b/b", "n2", true⟩ (by decide)⟩

/-- C5 counterexample: the loop body of `fetch_and_download` contains no
empty-page test.  With the cancellation flag false, an empty page at
cursor 7 is followed by a second listing call with the same cursor 7, and
no `break` occurs — refuting "treats the namespace as exhausted and stops
the scan loop". -/
theorem empty_page_continues_cex :
    runScan 7 [] [([], false), ([], false)] =
      [.listing 7, .observeFlag false, .persistCursor 7,
       .listing 7, .observeFlag false, .persistCursor 7] ∧
    (runScan 7 [] [([], false), ([], false)]).count (.listing 7) = 2 ∧
    Event.breakLoop ∉ runScan 7 [] [([], false), ([], false)] := by
  decide

/-- C5 corrected: an empty page does not stop the scan loop.  With the
cancellation flag false, an iteration on an empty page performs the
listing call, persists the unchanged cursor, and the loop continues
exactly as before — the next iteration re-requests the same cursor; the
loop exits only via the cancellation flag (or an error). -/
theorem empty_page_continues (last : Nat) (pending : List String)
    (rest : List (List RestRepository × Bool)) :
    runScan last pending (([], false) :: rest) =
      [.listing last, .observeFlag false, .persistCursor last] ++
        runScan last pending rest := by
  simp [runScan, processPage]

theorem split_of_not_mem {α : Type} {a : α} :
    ∀ (M pre post T : List α), M ++ T = pre ++ a :: post → a ∉ M →
      ∃ pre2, pre = M ++ pre2 ∧ T = pre2 ++ a :: post := by
  intro M
  induction M with
  | nil =>
    intro pre post T h _
    exact ⟨pre, rfl, by simpa using h⟩
  | cons m M2 ih =>
    intro pre post T h hnm
    cases pre with
    | nil =>
      simp only [List.cons_append, List.nil_append] at h
      injection h with h1 h2
      subst h1
      exact absurd (List.mem_cons_self _ _) hnm
    | cons p pre2 =>
      simp only [List.cons_append] at h
      injection h with h1 h2
      obtain ⟨pre3, hp, hT⟩ := ih pre2 post T h2 (fun hm => hnm (List.mem_cons_of_mem _ hm))
      subst h1
      exact ⟨pre3, by rw [hp]; rfl, hT⟩

theorem runScan_stop_after_flag :
    ∀ (script : List (List RestRepository × Bool)) (l : Nat) (t : List String)
      (pre post : List Event),
      runScan l t script = pre ++ Event.observeFlag true :: post →
      (∀ c, Event.listing c ∉ post) ∧ Event.breakLoop ∈ post := by
  intro script
  induction script with
  | nil =>
    intro l t pre post h
    simp only [runScan] at h
    have hlen := congrArg List.length h
    simp only [List.length_nil, List.length_append, List.length_cons] at hlen
    omega
  | cons hd rest ih =>
    obtain ⟨page, flag⟩ := hd
    intro l t pre post h
    cases flag with
    | true =>
      simp only [runScan] at h
      cases pre with
      | nil =>
        rw [List.nil_append] at h
        injection h with h1 h2
        exact Event.noConfusion h1
      | cons e1 pre1 =>
        simp only [List.cons_append] at h
        injection h with h1 h2
        cases pre1 with
        | nil =>
          simp only [List.nil_append] at h2
          injection h2 with h3 h4
          constructor
          · intro c
            rw [← h4]
            by_cases he : (processPage ⟨l, t, []⟩ page).to_load.isEmpty <;>
              simp [he, List.mem_append, List.mem_map]
          · rw [← h4]
            simp
        | cons e2 pre2 =>
          simp only [List.cons_append] at h2
          injection h2 with h3 h4
          have hmem : Event.observeFlag true ∈
              (processPage ⟨l, t, []⟩ page).dispatched.map Event.dispatchBatch ++
                  [Event.persistCursor (processPage ⟨l, t, []⟩ page).last_id] ++
                ((if (processPage ⟨l, t, []⟩ page).to_load.isEmpty then []
                  else [Event.dispatchFinal (processPage ⟨l, t, []⟩ page).to_load]) ++
                  [Event.breakLoop]) := by
            rw [h4]
            exact List.mem_append.mpr (Or.inr (List.mem_cons_self _ _))
          refine absurd hmem ?_
          by_cases he : (processPage ⟨l, t, []⟩ page).to_load.isEmpty <;> simp [he]
    | false =>
      simp only [runScan] at h
      cases pre with
      | nil =>
        rw [List.nil_append] at h
        injection h with h1 h2
        exact Event.noConfusion h1
      | cons e1 pre1 =>
        simp only [List.cons_append] at h
        injection h with h1 h2
        cases pre1 with
        | nil =>
          simp only [List.nil_append] at h2
          injection h2 with h3 h4
          injection h3 with h5
          exact Bool.noConfusion h5
        | cons e2 pre2 =>
          simp only [List.cons_append] at h2
          injection h2 with h3 h4
          have hnm : Event.observeFlag true ∉
              (processPage ⟨l, t, []⟩ page).dispatched.map Event.dispatchBatch ++
                [Event.persistCursor (processPage ⟨l, t, []⟩ page).last_id] := by
            simp
          obtain ⟨pre3, hp3, hX⟩ := split_of_not_mem _ _ _ _ h4 hnm
          exact ih (processPage ⟨l, t, []⟩ page).last_id
            (processPage ⟨l, t, []⟩ page).to_load pre3 post hX

/-- C8: once the cancellation flag is observed true during a scan
iteration, the engine dispatches the pending partial batch (if any) and
exits the loop, and no listing call occurs after the flag is observed
true: in every trace of the scan loop, any suffix following an
`observeFlag true` event contains no `listing` event and does contain the
`breakLoop` exit; and on the iteration that observes true, a non-empty
pending batch is dispatched via the drain call. -/
theorem cancellation_drains_and_stops :
    (∀ (l : Nat) (t : List String) (script : List (List RestRepository × Bool))
        (pre post : List Event),
      runScan l t script = pre ++ Event.observeFlag true :: post →
      (∀ c, Event.listing c ∉ post) ∧ Event.breakLoop ∈ post) ∧
    (∀ (l : Nat) (t : List String) (page : List RestRepository)
        (rest : List (List RestRepository × Bool)),
      (processPage ⟨l, t, []⟩ page).to_load ≠ [] →
      Event.dispatchFinal (processPage ⟨l, t, []⟩ page).to_load ∈
        runScan l t ((page, true) :: rest)) := by
  constructor
  · intro l t script pre post h
    exact runScan_stop_after_flag script l t pre post h
  · intro l t page rest hne
    have he : (processPage ⟨l, t, []⟩ page).to_load.isEmpty = false := by
      cases hl : (processPage ⟨l, t, []⟩ page).to_load
      · exact absurd hl hne
      · rfl
    simp [runScan, he]

/-- Witness for C8 on the concrete script of one iteration observing the
flag true: after the observation the trace holds only the cursor persist
and the loop exit — no listing — and a pending partial batch is drained. -/
theorem cancellation_drains_and_stops_witness :
    Event.listing 0 ∉ [Event.persistCursor 0, Event.breakLoop] ∧
    Event.breakLoop ∈ [Event.persistCursor 0, Event.breakLoop] ∧
    Event.dispatchFinal ["x"] ∈ runScan 0 ["x"] [([], true)] :=
  ⟨(cancellation_drains_and_stops.1 0 [] [([], true)] [Event.listing 0]
      [Event.persistCursor 0, Event.breakLoop] (by decide)).1 0,
   (cancellation_drains_and_stops.1 0 [] [([], true)] [Event.listing 0]
      [Event.persistCursor 0, Event.breakLoop] (by decide)).2,
   cancellation_drains_and_stops.2 0 ["x"] [] [] (by decide)⟩

theorem fetch_all_files_for_shape (repoId file : String)
    (treeRes : Except GhError (List String)) (dl : String → Except GhError Unit) :
    (∃ e, fetch_all_files_for repoId file treeRes dl = ([], .error e)) ∨
    (∃ b, fetch_all_files_for repoId file treeRes dl = ([.ledgerAppend repoId], .ok b)) := by
  unfold fetch_all_files_for
  cases treeRes with
  | error e =>
    cases e <;> first
      | exact Or.inl ⟨_, rfl⟩
      | exact Or.inr ⟨_, rfl⟩
  | ok tree =>
    cases hf : firstFatal dl (tree.filter fun p => strEndsWith p file) with
    | none =>
      exact Or.inr ⟨!(tree.filter fun p => strEndsWith p file).isEmpty, by simp [hf]⟩
    | some e => exact Or.inl ⟨e, by simp [hf]⟩

theorem harvestRepo_record_implies_ledger (r : GraphRepository) (file : String)
    (treeRes : Except GhError (List String)) (dl : String → Except GhError Unit)
    (id name : String) (b : Bool) :
    StoreEvent.recordAppend id name b ∈ (harvestRepo r file treeRes dl).1 →
    StoreEvent.ledgerAppend id ∈ (harvestRepo r file treeRes dl).1 := by
  intro hmem
  unfold harvestRepo at hmem ⊢
  by_cases hj : r.isJava = true
  · simp only [hj, if_true] at hmem ⊢
    rcases fetch_all_files_for_shape r.id file treeRes dl with ⟨e, hfe⟩ | ⟨b2, hfb⟩
    · rw [hfe] at hmem
      simp at hmem
    · rw [hfb] at hmem ⊢
      simp at hmem ⊢
      obtain ⟨h1, h2, h3⟩ := hmem
      subst h1
      simp
  · simp only [hj, if_false] at hmem
    simp at hmem

theorem load_repositories_record_implies_ledger (file : String)
    (treeOf : String → Except GhError (List String))
    (dl : String → String → Except GhError Unit) (id name : String) (b : Bool) :
    ∀ repos : List GraphRepository,
      StoreEvent.recordAppend id name b ∈ (load_repositories file treeOf dl repos).1 →
      StoreEvent.ledgerAppend id ∈ (load_repositories file treeOf dl repos).1 := by
  intro repos
  induction repos with
  | nil =>
    intro h
    simp [load_repositories] at h
  | cons r rest ih =>
    intro hmem
    simp only [load_repositories] at hmem ⊢
    rcases hh : harvestRepo r file (treeOf r.id) (dl r.id) with ⟨evs, err⟩
    rw [hh] at hmem
    cases err with
    | some e =>
      dsimp only at hmem ⊢
      have hr := harvestRepo_record_implies_ledger r file (treeOf r.id) (dl r.id) id name b
      rw [hh] at hr
      exact hr hmem
    | none =>
      dsimp only at hmem ⊢
      rcases List.mem_append.mp hmem with h | h
      · have hr := harvestRepo_record_implies_ledger r file (treeOf r.id) (dl r.id) id name b
        rw [hh] at hr
        exact List.mem_append.mpr (Or.inl (hr h))
      · exact List.mem_append.mpr (Or.inr (ih h))

theorem firstFatal_not_http (dl : String → Except GhError Unit) :
    ∀ (l : List String) (e : GhError), firstFatal dl l = some e → e.isHttpStatus = false := by
  intro l
  induction l with
  | nil =>
    intro e h
    simp [firstFatal] at h
  | cons p rest ih =>
    intro e h
    unfold firstFatal at h
    cases hd : dl p with
    | ok u =>
      rw [hd] at h
      exact ih e h
    | error e2 =>
      rw [hd] at h
      cases e2 with
      | HttpError s => exact ih e h
      | Reqwest => simp at h; subst h; rfl
      | RateLimit s => simp at h; subst h; rfl
      | DataError => simp at h; subst h; rfl
      | EmptyData => simp at h; subst h; rfl
      | Io => simp at h; subst h; rfl

theorem firstFatal_none_of_benign (dl : String → Except GhError Unit) :
    ∀ l : List String, (∀ p ∈ l, ∀ e, dl p = .error e → e.isHttpStatus = true) →
      firstFatal dl l = none := by
  intro l
  induction l with
  | nil => intro _; rfl
  | cons p rest ih =>
    intro hb
    unfold firstFatal
    cases hd : dl p with
    | ok u => exact ih (fun q hq => hb q (List.mem_cons_of_mem _ hq))
    | error e =>
      have he := hb p (List.mem_cons_self _ _) e hd
      cases e with
      | HttpError s => exact ih (fun q hq => hb q (List.mem_cons_of_mem _ hq))
      | Reqwest => simp [GhError.isHttpStatus] at he
      | RateLimit s => simp [GhError.isHttpStatus] at he
      | DataError => simp [GhError.isHttpStatus] at he
      | EmptyData => simp [GhError.isHttpStatus] at he
      | Io => simp [GhError.isHttpStatus] at he

/-- C3 counterexample: a repository whose language histogram lacks "Java"
is skipped without any ledger append.  On the single non-qualifying
repository `{id "id1", languages [Rust]}`, the detail+harvest stage
performs no store events at all — in particular `mark_fetched` is never
called, refuting "its id is still appended to the completion ledger". -/
theorem nonqualifying_not_ledgered_cex :
    GraphRepository.isJava ⟨"id1", "o/r", [some "Rust"]⟩ = false ∧
    load_repositories "pom.xml" (fun _ => .ok []) (fun _ _ => .ok ())
      [⟨"id1", "o/r", [some "Rust"]⟩] = ([], none) ∧
    StoreEvent.ledgerAppend "id1" ∉
      (load_repositories "pom.xml" (fun _ => .ok []) (fun _ _ => .ok ())
        [⟨"id1", "o/r", [some "Rust"]⟩]).1 := by
  decide

/-- C3 corrected: a repository whose language histogram lacks "Java" is
skipped entirely — no ledger append and no ResultRecord (the harvest step
emits no store events for it).  The superset relation nevertheless holds:
in every trace of the detail+harvest stage, any repository id with a
ResultRecord append also has a completion-ledger append. -/
theorem nonqualifying_skipped_entirely :
    (∀ (r : GraphRepository) (file : String) (treeRes : Except GhError (List String))
        (dl : String → Except GhError Unit),
      r.isJava = false → harvestRepo r file treeRes dl = ([], none)) ∧
    (∀ (file : String) (treeOf : String → Except GhError (List String))
        (dl : String → String → Except GhError Unit) (repos : List GraphRepository)
        (id name : String) (b : Bool),
      StoreEvent.recordAppend id name b ∈ (load_repositories file treeOf dl repos).1 →
      StoreEvent.ledgerAppend id ∈ (load_repositories file treeOf dl repos).1) := by
  constructor
  · intro r file treeRes dl hj
    simp [harvestRepo, hj]
  · intro file treeOf dl repos id name b hmem
    exact load_repositories_record_implies_ledger file treeOf dl id name b repos hmem

/-- Witness for the corrected C3: a concrete non-Java repository produces
no store events, and in the concrete Java harvest trace the record append
is accompanied by its ledger append. -/
theorem nonqualifying_skipped_entirely_witness :
    harvestRepo ⟨"id2", "o/s", [some "Rust"]⟩ "pom.xml" (.ok ["pom.xml"])
      (fun _ => .ok ()) = ([], none) ∧
    StoreEvent.ledgerAppend "id1" ∈
      (load_repositories "pom.xml" (fun _ => .ok ["pom.xml"]) (fun _ _ => .ok ())
        [⟨"id1", "o/r", [some "Java"]⟩]).1 :=
  ⟨nonqualifying_skipped_entirely.1 ⟨"id2", "o/s", [some "Rust"]⟩ "pom.xml"
      (.ok ["pom.xml"]) (fun _ => .ok ()) (by decide),
   nonqualifying_skipped_entirely.2 "pom.xml" (fun _ => .ok ["pom.xml"])
      (fun _ _ => .ok ()) [⟨"id1", "o/r", [some "Java"]⟩] "id1" "o/r" true (by decide)⟩

/-- C4 counterexample: inside a repository's download join loop, *every*
HTTP-status-classified failure is benign, not only "not found".  A
download failing with `HttpError 500` (a non-2xx status other than 404)
does not abort the repository: the join loop continues, the ledger is
appended and the function returns `Ok` — refuting "any other non-2xx HTTP
status aborts that repository's processing". -/
theorem download_http_error_benign_cex :
    statusIsSuccess 500 = false ∧ (500 : Nat) ≠ 404 ∧
    fetch_all_files_for "id1" "pom.xml" (.ok ["pom.xml"])
      (fun _ => .error (.HttpError 500)) = ([.ledgerAppend "id1"], .ok true) := by
  decide

/-- C4 corrected: within one repository's fan-out join, a download failing
with any HTTP-status classification (`Error::HttpError`, which includes
the "not found" case) is benign — logged and skipped, the join continues
and the repository completes with its ledger append; only a
non-HTTP-status error (transport, data, IO) aborts that repository's
processing, surfacing as the function's error with no ledger append, and
every aborting error is indeed non-HTTP-status. -/
theorem download_error_classification (repoId file : String) (tree : List String)
    (dl : String → Except GhError Unit) :
    (firstFatal dl (tree.filter (fun p => strEndsWith p file)) = none →
      fetch_all_files_for repoId file (.ok tree) dl =
        ([.ledgerAppend repoId],
         .ok (!(tree.filter (fun p => strEndsWith p file)).isEmpty))) ∧
    (∀ e, firstFatal dl (tree.filter (fun p => strEndsWith p file)) = some e →
      fetch_all_files_for repoId file (.ok tree) dl = ([], .error e) ∧
      e.isHttpStatus = false) ∧
    ((∀ p ∈ tree.filter (fun p => strEndsWith p file), ∀ e, dl p = .error e →
        e.isHttpStatus = true) →
      fetch_all_files_for repoId file (.ok tree) dl =
        ([.ledgerAppend repoId],
         .ok (!(tree.filter (fun p => strEndsWith p file)).isEmpty))) := by
  refine ⟨?_, ?_, ?_⟩
  · intro h
    simp [fetch_all_files_for, h]
  · intro e h
    exact ⟨by simp [fetch_all_files_for, h], firstFatal_not_http dl _ e h⟩
  · intro hb
    have h := firstFatal_none_of_benign dl _ hb
    simp [fetch_all_files_for, h]

/-- Witness for the corrected C4: a 404-failing download is benign (the
repository completes with its ledger append), and a transport error is a
non-HTTP-status classification. -/
theorem download_error_classification_witness :
    fetch_all_files_for "id9" "pom.xml" (.ok ["pom.xml"])
        (fun _ => .error (.HttpError 404)) =
      ([.ledgerAppend "id9"],
       .ok (!((["pom.xml"] : List String).filter
          (fun p => strEndsWith p "pom.xml")).isEmpty)) ∧
    GhError.Reqwest.isHttpStatus = false :=
  ⟨(download_error_classification "id9" "pom.xml" ["pom.xml"]
      (fun _ => .error (.HttpError 404))).1 (by decide),
   ((download_error_classification "id9" "pom.xml" ["pom.xml"]
      (fun _ => .error .Reqwest)).2.1 .Reqwest (by decide)).2⟩

/-- C7: for a qualifying (Java) repository whose fan-out group joins with
no non-benign error, the harvest performs exactly one ledger append of
its id followed by exactly one ResultRecord append — one pair, in that
order, regardless of whether any file matched — and the record's boolean
is true iff at least one tree entry has the target suffix. -/
theorem qualifying_append_pair (r : GraphRepository) (file : String)
    (tree : List String) (dl : String → Except GhError Unit)
    (hq : r.isJava = true)
    (hjoin : firstFatal dl (tree.filter (fun p => strEndsWith p file)) = none) :
    harvestRepo r file (.ok tree) dl =
      ([.ledgerAppend r.id,
        .recordAppend r.id r.name_with_owner
          (!(tree.filter (fun p => strEndsWith p file)).isEmpty)], none) ∧
    ((!(tree.filter (fun p => strEndsWith p file)).isEmpty) = true ↔
      ∃ p ∈ tree, strEndsWith p file = true) := by
  constructor
  · simp [harvestRepo, hq, fetch_all_files_for, hjoin]
  · constructor
    · intro hne
      cases hfil : tree.filter (fun p => strEndsWith p file) with
      | nil =>
        rw [hfil] at hne
        simp at hne
      | cons a as =>
        have ha : a ∈ tree.filter (fun p => strEndsWith p file) := by
          rw [hfil]
          exact List.mem_cons_self _ _
        have hm := List.mem_filter.mp ha
        exact ⟨a, hm.1, hm.2⟩
    · rintro ⟨p, hp, hsuf⟩
      have hm : p ∈ tree.filter (fun p => strEndsWith p file) :=
        List.mem_filter.mpr ⟨hp, hsuf⟩
      cases hfil : tree.filter (fun p => strEndsWith p file) with
      | nil =>
        rw [hfil] at hm
        simp at hm
      | cons a as => rfl

/-- Witness for C7 on a concrete Java repository with tree
`["pom.xml", "readme.md"]` and clean downloads: exactly the ledger/record
pair is appended, with the boolean true. -/
theorem qualifying_append_pair_witness :
    harvestRepo ⟨"id1", "o/r", [some "Java"]⟩ "pom.xml"
        (.ok ["pom.xml", "readme.md"]) (fun _ => .ok ()) =
      ([.ledgerAppend "id1",
        .recordAppend "id1" "o/r"
          (!((["pom.xml", "readme.md"] : List String).filter
            (fun p => strEndsWith p "pom.xml")).isEmpty)], none) :=
  (qualifying_append_pair ⟨"id1", "o/r", [some "Java"]⟩ "pom.xml"
    ["pom.xml", "readme.md"] (fun _ => .ok ()) (by decide) (by decide)).1

example : (rotateStep 3 2) = (0, true) := by decide
example : (rotateStep 3 1) = (2, false) := by decide
example : rotateIter 3 4 = 1 := by decide
example : sleepCount 3 7 = 2 := by decide
example : strContains "API rate limit exceeded" "rate limit" = true := by decide
example : strContains "Not Found" "rate limit" = false := by decide
example : strEndsWith "sub/pom.xml" "pom.xml" = true := by decide
example : handle_response ⟨503, some ⟨"abuse detected"⟩⟩ = .error (.RateLimit 503) := by decide
example : handle_response ⟨404, some ⟨"Not Found"⟩⟩ = .error (.HttpError 404) := by decide
example : Repo.path ⟨"i", "a/b.c"⟩ = "a.b.c" := by decide
example : Repo.path ⟨"i", "a.b/c"⟩ = "a.b.c" := by decide
example : processPage ⟨0, [], []⟩ [⟨5, "a/r5", "n5", false⟩, ⟨3, "b/r3", "n3", false⟩] =
    ⟨3, ["n5", "n3"], []⟩ := by decide
example : processPage ⟨0, [], []⟩ [⟨7, "a/f", "nf", true⟩] = ⟨7, [], []⟩ := by decide
example : runScan 7 [] [([], false), ([], false)] =
    [.listing 7, .observeFlag false, .persistCursor 7,
     .listing 7, .observeFlag false, .persistCursor 7] := by decide
example : runScan 0 ["x"] [([], true)] =
    [.listing 0, .observeFlag true, .persistCursor 0, .dispatchFinal ["x"], .breakLoop] := by
  decide
example : GraphRepository.isJava ⟨"i", "o/r", [some "Rust", none]⟩ = false := by decide
example : GraphRepository.isJava ⟨"i", "o/r", [none, some "Java"]⟩ = true := by decide
example : fetch_all_files_for "id1" "pom.xml" (.ok ["pom.xml", "readme.md"])
    (fun _ => .error (.HttpError 500)) = ([.ledgerAppend "id1"], .ok true) := by decide
example : fetch_all_files_for "id1" "pom.xml" (.ok ["pom.xml"])
    (fun _ => .error .Reqwest) = ([], .error .Reqwest) := by decide
example : load_repositories "pom.xml" (fun _ => .ok []) (fun _ _ => .ok ())
    [⟨"id1", "o/r", [some "Rust"]⟩] = ([], none) := by decide
example : load_repositories "pom.xml" (fun _ => .ok ["pom.xml"]) (fun _ _ => .ok ())
    [⟨"id1", "o/r", [some "Java"]⟩] =
    ([.ledgerAppend "id1", .recordAppend "id1" "o/r" true], none) := by decide
